import Mathlib

/-!
Verification of the terminal rendering and cursor-tracking core of the
`typeing` typing-test program (src/tui.rs), via a shallow embedding.

Conventions of the embedding:
* Rust `u16`/`usize` quantities are modelled as `Nat`.  Where the source
  performs an unsigned subtraction that can underflow (a panic in a debug
  build), the embedding uses the checked subtraction `sub16?`; `none`
  models the panic.  Other arithmetic in the source stays far away from
  the `u16` range on the inputs the claims are about, so plain `Nat`
  arithmetic is used there.
* Rust `String::len` is a byte count, modelled by `String.utf8ByteSize`.
* `Vec` indexing panics out of bounds; the embedding uses `l[i]?` and an
  `Option` layer where the source can panic (`none` models the panic).
* Terminal output is modelled as a trace of protocol operations (`TOp`)
  together with the hardware cursor position maintained by a small
  interpreter (`hwStep`): absolute positioning sets the position, CUB
  (move left) moves left clamping at column 1, and printing a `Text`
  advances by its visual width (the `Text.new` precondition makes glyph
  width equal the stored length).
* The terminal device may fail: the `Tui` state carries an optional
  index `failAt` of the write/flush attempt that fails; every `write!`
  or `flush` call is one attempt.  `failAt = none` models a healthy
  device.
-/

/-! ### StyledText (src/tui.rs, `Text`) -/

/-- termion `style::Faint` escape. -/
def faintOn : String := "\x1b[2m"

/-- termion `style::NoFaint` escape. -/
def faintOff : String := "\x1b[22m"

/-- termion `style::Underline` escape. -/
def underlineOn : String := "\x1b[4m"

/-- termion `style::Reset` escape. -/
def styleReset : String := "\x1b[m"

/-- termion `color::Fg(color::Reset)` escape. -/
def fgReset : String := "\x1b[39m"

/-- `Text` from src/tui.rs: raw (display) form, plain form, and the
visual width taken when printed. -/
structure Text where
  raw_text : String
  text : String
  length : Nat
  deriving Repr, DecidableEq

/-- `Text::new`: both forms are the input string and the length is its
byte length (`text.len()` in Rust). -/
def Text.new (s : String) : Text :=
  { raw_text := s, text := s, length := s.utf8ByteSize }

/-- `Text::with_faint`: wrap the raw text in faint-on/faint-off. -/
def Text.with_faint (t : Text) : Text :=
  { t with raw_text := faintOn ++ t.raw_text ++ faintOff }

/-- `Text::with_underline`: wrap the raw text in underline/reset. -/
def Text.with_underline (t : Text) : Text :=
  { t with raw_text := underlineOn ++ t.raw_text ++ styleReset }

/-- `Text::with_color`: wrap the raw text in the color's foreground
escape (parameter `cfg`, the string termion's `color::Fg(color)`
produces) and the foreground reset. -/
def Text.with_color (cfg : String) (t : Text) : Text :=
  { t with raw_text := cfg ++ t.raw_text ++ fgReset }

/-- `impl HasLength for [Text]`: sum of the visual widths. -/
def textsLength (ts : List Text) : Nat :=
  (ts.map Text.length).sum

/-! ### CursorPos (src/tui.rs, `LinePos` / `CursorPos`) -/

/-- `LinePos`: terminal row `y`, starting column `x`, character count
`length` of one rendered line. -/
structure LinePos where
  y : Nat
  x : Nat
  length : Nat
  deriving Repr, DecidableEq

/-- Default `LinePos` used with `List.getD` in statements (never read
under the well-formedness hypotheses). -/
def d0 : LinePos := ⟨0, 0, 0⟩

/-- `CursorPos`: the tracked lines and the current logical position. -/
structure CursorPos where
  lines : List LinePos
  cur_line : Nat
  cur_char_in_line : Nat
  deriving Repr, DecidableEq

/-- `CursorPos::new`. -/
def CursorPos.new : CursorPos :=
  { lines := [], cur_line := 0, cur_char_in_line := 0 }

/-- Checked subtraction modelling Rust `u16` subtraction: `none` when
the subtraction would underflow (an arithmetic-overflow panic in a
debug build). -/
def sub16? (a b : Nat) : Option Nat :=
  if b ≤ a then some (a - b) else none

/-- `CursorPos::cur_pos`: absolute coordinates of the current logical
position; `none` models the out-of-bounds indexing panic. -/
def CursorPos.cur_posc (c : CursorPos) : Option (Nat × Nat) :=
  match c.lines[c.cur_line]? with
  | none => none
  | some line => some (line.x + c.cur_char_in_line, line.y)

/-- `CursorPos::next`: advance one character, wrapping to the next line;
returns the resulting coordinates together with the new state.  `none`
models an indexing panic or the `length - 1` underflow. -/
def CursorPos.nextc (c : CursorPos) : Option ((Nat × Nat) × CursorPos) :=
  match c.lines[c.cur_line]? with
  | none => none
  | some line =>
    match sub16? line.length 1 with
    | none => none
    | some max_chars_index =>
      let c' :=
        if c.cur_char_in_line < max_chars_index then
          { c with cur_char_in_line := c.cur_char_in_line + 1 }
        else if c.cur_line + 1 < c.lines.length then
          { c with cur_line := c.cur_line + 1, cur_char_in_line := 0 }
        else c
      match c'.cur_posc with
      | none => none
      | some p => some (p, c')

/-- `CursorPos::prev`: retreat one character, wrapping to the previous
line's last index; returns the resulting coordinates and new state.
`none` models an indexing panic or the `length - 1` underflow. -/
def CursorPos.prevc (c : CursorPos) : Option ((Nat × Nat) × CursorPos) :=
  if 0 < c.cur_char_in_line then
    let c' := { c with cur_char_in_line := c.cur_char_in_line - 1 }
    match c'.cur_posc with
    | none => none
    | some p => some (p, c')
  else if 0 < c.cur_line then
    match c.lines[c.cur_line - 1]? with
    | none => none
    | some line =>
      match sub16? line.length 1 with
      | none => none
      | some m =>
        let c' := { c with cur_line := c.cur_line - 1, cur_char_in_line := m }
        match c'.cur_posc with
        | none => none
        | some p => some (p, c')
  else
    match c.cur_posc with
    | none => none
    | some p => some (p, c)

/-- Well-formed cursor state: at least one tracked line, the current
line index in range, the column index within the current line, and
every tracked line of length at least 1. -/
def CursorPos.WF (c : CursorPos) : Prop :=
  c.lines ≠ [] ∧
  c.cur_line < c.lines.length ∧
  c.cur_char_in_line < (c.lines.getD c.cur_line d0).length ∧
  ∀ l ∈ c.lines, 1 ≤ l.length

instance (c : CursorPos) : Decidable c.WF := by
  unfold CursorPos.WF; infer_instance

/-- Linear index of the current position inside the word block. -/
def CursorPos.posIndex (c : CursorPos) : Nat :=
  ((c.lines.map LinePos.length).take c.cur_line).sum + c.cur_char_in_line

/-- Total number of characters in the tracked lines. -/
def CursorPos.totalLen (c : CursorPos) : Nat :=
  (c.lines.map LinePos.length).sum

/-- The terminal state of the cursor model: last line, last column. -/
def CursorPos.atLast (c : CursorPos) : Prop :=
  c.cur_line + 1 = c.lines.length ∧
  c.cur_char_in_line + 1 = (c.lines.getD c.cur_line d0).length

instance (c : CursorPos) : Decidable c.atLast := by
  unfold CursorPos.atLast; infer_instance

/-- Iterate `next`, propagating panics. -/
def CursorPos.iterNextN : Nat → CursorPos → Option CursorPos
  | 0, c => some c
  | n + 1, c =>
    match c.nextc with
    | none => none
    | some (_, c') => CursorPos.iterNextN n c'

/-- Iterate `prev`, propagating panics. -/
def CursorPos.iterPrevN : Nat → CursorPos → Option CursorPos
  | 0, c => some c
  | n + 1, c =>
    match c.prevc with
    | none => none
    | some (_, c') => CursorPos.iterPrevN n c'

/-! ### Word-wrap layout (the pure part of `TypeingTui::display_words`) -/

/-- `MIN_LINE_WIDTH` from src/tui.rs. -/
def MIN_LINE_WIDTH : Nat := 50

/-- `MAX_WORDS_PER_LINE` from `display_words`. -/
def MAX_WORDS_PER_LINE : Nat := 10

/-- Rust's `Vec::join(" ")`. -/
def joinSp : List String → String
  | [] => ""
  | [w] => w
  | w :: ws => w ++ " " ++ joinSp ws

/-- The `Text` the source pushes when it closes a non-final line:
`Text::from(line.join(" ") + " ").with_faint()`. -/
def closeLine (l : List String) : Text :=
  (Text.new (joinSp l ++ " ")).with_faint

/-- Loop state of the word-wrap fold in `display_words`.  `linesW` is a
ghost copy of each closed line's words; the source pushes only the
rendered `Text` (`linesT`), which is `closeLine` of those words. -/
structure WrapSt where
  current_len : Nat
  max_word_len : Nat
  line : List String
  linesT : List Text
  linesW : List (List String)
  deriving Repr

/-- One iteration of the `for word in words` loop of `display_words`. -/
def wrapStep (max_width : Nat) (st : WrapSt) (word : String) : WrapSt :=
  let mwl := max st.max_word_len (word.utf8ByteSize + 1)
  let new_len := st.current_len + word.utf8ByteSize + 1
  if st.line.length < MAX_WORDS_PER_LINE ∧ new_len ≤ max_width then
    { st with
      max_word_len := mwl
      line := st.line ++ [word]
      current_len := st.current_len + word.utf8ByteSize + 1 }
  else
    { current_len := word.utf8ByteSize + 1
      max_word_len := mwl
      line := [word]
      linesT := st.linesT ++ [closeLine st.line]
      linesW := st.linesW ++ [st.line] }

/-- The whole word-wrap fold, from the empty loop state. -/
def wrapWords (words : List String) (max_width : Nat) : WrapSt :=
  words.foldl (wrapStep max_width) ⟨0, 0, [], [], []⟩

/-- The rendered lines `display_words` builds: the closed lines plus
`Text::from(line.join(" ")).with_faint()` for the final line. -/
def displayWordsLines (words : List String) (max_width : Nat) : List Text :=
  let st := wrapWords words max_width
  st.linesT ++ [(Text.new (joinSp st.line)).with_faint]

/-- Ghost view of the layout: the words of each output line. -/
def displayWordsLinesW (words : List String) (max_width : Nat) : List (List String) :=
  let st := wrapWords words max_width
  st.linesW ++ [st.line]

/-- Byte length of the longest word of the list. -/
def longestWordLen (words : List String) : Nat :=
  words.foldl (fun m w => max m w.utf8ByteSize) 0

/-- The height-validation error message of `display_words`. -/
def heightMsg (need got : Nat) : String :=
  "终端高度太短! Typeing 至少需要 " ++ toString need ++ " 行，得到 " ++ toString got ++ " 行"

/-- The width-validation error message of `display_words`. -/
def widthMsg (need got : Nat) : String :=
  "终端宽度太低! Typeing 至少需要 " ++ toString need ++ " 列，得到 " ++ toString got ++ " 列"

/-! ### The terminal surface (`TypeingTui`) as a state machine -/

/-- Terminal protocol operations the program emits (termion escapes). -/
inductive TOp where
  | clearAll : TOp
  | goto (x y : Nat) : TOp
  | left (n : Nat) : TOp
  | text (t : Text) : TOp
  | steadyBlock : TOp
  | blinkingBar : TOp
  | curHide : TOp
  | curShow : TOp
  deriving Repr, DecidableEq

/-- Hardware-cursor effect of one operation: absolute positioning sets
the position, CUB moves left clamping at column 1, printing a `Text`
advances by its visual width, everything else moves nothing. -/
def hwStep (p : Nat × Nat) : TOp → Nat × Nat
  | .goto x y => (x, y)
  | .left n => (max 1 (p.1 - n), p.2)
  | .text t => (p.1 + t.length, p.2)
  | _ => p

/-- State of the embedded `TypeingTui` together with the modelled
terminal device: emitted trace, hardware cursor, attempt counter and
failure schedule, plus the fields of the Rust struct.  `termW`/`termH`
are what `terminal_size()` reports. -/
structure Tui where
  out : List TOp
  hwx : Nat
  hwy : Nat
  writesDone : Nat
  failAt : Option Nat
  cursor_pos : CursorPos
  track_lines : Bool
  bottom_lines_len : Nat
  termW : Nat
  termH : Nat
  deriving Repr

/-- Append one successfully written operation to the trace, updating
the hardware cursor. -/
def Tui.emit (s : Tui) (op : TOp) : Tui :=
  let p := hwStep (s.hwx, s.hwy) op
  { s with out := s.out ++ [op], hwx := p.1, hwy := p.2 }

/-- Append a list of operations (one `write!` call's payload). -/
def Tui.emits (s : Tui) (ops : List TOp) : Tui :=
  ops.foldl Tui.emit s

/-- Placeholder for the message of the underlying `io::Error`. -/
def ioErr : String := "io error"

/-- Sequencing of the embedded fallible, panicking computations:
`none` is a panic, `Except.error` an early `?` return. -/
def andThen (x : Option (Except String α × Tui))
    (f : α → Tui → Option (Except String β × Tui)) :
    Option (Except String β × Tui) :=
  match x with
  | none => none
  | some (.error e, s) => some (.error e, s)
  | some (.ok a, s) => f a s

/-- One `write!` call whose result is propagated with `?`: one device
attempt; on the scheduled failure nothing is emitted and an I/O error
is returned. -/
def wr (ops : List TOp) (s : Tui) : Option (Except String Unit × Tui) :=
  if s.failAt = some s.writesDone then
    some (.error ioErr, { s with writesDone := s.writesDone + 1 })
  else
    some (.ok (), Tui.emits { s with writesDone := s.writesDone + 1 } ops)

/-- One `write!` call whose `Result` the source discards (the
`move_to_*` family): one device attempt, errors ignored. -/
def wrIgnore (op : TOp) (s : Tui) : Tui :=
  if s.failAt = some s.writesDone then
    { s with writesDone := s.writesDone + 1 }
  else
    Tui.emits { s with writesDone := s.writesDone + 1 } [op]

/-- `TypeingTui::flush`: one device attempt, emits nothing. -/
def flushM (s : Tui) : Option (Except String Unit × Tui) :=
  if s.failAt = some s.writesDone then
    some (.error ioErr, { s with writesDone := s.writesDone + 1 })
  else
    some (.ok (), { s with writesDone := s.writesDone + 1 })

namespace TypeingTui

/-- `TypeingTui::reset`: replace the cursor model with a fresh one. -/
def reset (s : Tui) : Tui :=
  { s with cursor_pos := CursorPos.new }

/-- `TypeingTui::reset_screen`: clear everything, park a blinking bar
at the terminal's center, flush. -/
def reset_screen (s : Tui) : Option (Except String Unit × Tui) :=
  andThen (wr [.clearAll, .goto (s.termW / 2) (s.termH / 2), .blinkingBar] s) fun _ s =>
  flushM s

/-- `TypeingTui::display_raw_text` (concretised to `Text`, cf. the
generic `T: Display` bound in the source). -/
def display_raw_text (t : Text) (s : Tui) : Option (Except String Unit × Tui) :=
  wr [.text t] s

/-- The `for t in text.as_ref()` loop of `display_a_line_raw`. -/
def dispTexts : List Text → Tui → Option (Except String Unit × Tui)
  | [], s => some (.ok (), s)
  | t :: ts, s => andThen (display_raw_text t s) fun _ s => dispTexts ts s

/-- The `if self.track_lines { ... }` block of `display_a_line_raw`:
query the hardware cursor position and record a `LinePos` of the given
length. -/
def recordLine (len : Nat) (s : Tui) : Tui :=
  if s.track_lines then
    { s with cursor_pos :=
        { s.cursor_pos with
          lines := s.cursor_pos.lines ++ [{ y := s.hwy, x := s.hwx, length := len }] } }
  else s

/-- `TypeingTui::display_a_line_raw`.  NOTE: the source computes
`len` as `text.as_ref().len()`, the slice's element count, not the
`HasLength` visual width; the embedding reproduces that faithfully. -/
def display_a_line_raw (text : List Text) (s : Tui) : Option (Except String Unit × Tui) :=
  andThen (wr [.left (text.length / 2)] s) fun _ s =>
  andThen (dispTexts text (recordLine text.length s)) fun _ s =>
  wr [.left text.length] s

/-- `TypeingTui::display_a_line`. -/
def display_a_line (text : List Text) (s : Tui) : Option (Except String Unit × Tui) :=
  andThen (display_a_line_raw text s) fun _ s => flushM s

/-- The `for (line_no, line) in lines.iter().enumerate()` loop of
`display_lines`.  `terminal_size()` is queried once before the loop in
the source; nothing in the loop changes `termW`/`termH`, so reading
them from the state at each step is the same thing. -/
def displayLinesGo (line_offset : Nat) :
    List (List Text) → Nat → Tui → Option (Except String Unit × Tui)
  | [], _, s => some (.ok (), s)
  | l :: ls, line_no, s =>
    andThen (wr [.goto (s.termW / 2) (s.termH / 2 + line_no - line_offset)] s) fun _ s =>
    andThen (display_a_line_raw l s) fun _ s =>
    displayLinesGo line_offset ls (line_no + 1) s

/-- `TypeingTui::display_lines`. -/
def display_lines (lines : List (List Text)) (s : Tui) : Option (Except String Unit × Tui) :=
  andThen (displayLinesGo (lines.length / 2) lines 0 s) fun _ s =>
  flushM s

/-- The loop of `display_lines_bottom`. -/
def displayLinesBottomGo (line_offset : Nat) :
    List (List Text) → Nat → Tui → Option (Except String Unit × Tui)
  | [], _, s => some (.ok (), s)
  | l :: ls, line_no, s =>
    andThen (wr [.goto (s.termW / 2) (s.termH - 1 + line_no - line_offset)] s) fun _ s =>
    andThen (display_a_line_raw l s) fun _ s =>
    displayLinesBottomGo line_offset ls (line_no + 1) s

/-- `TypeingTui::display_lines_bottom`. -/
def display_lines_bottom (lines : List (List Text)) (s : Tui) :
    Option (Except String Unit × Tui) :=
  let s := { s with bottom_lines_len := lines.length }
  andThen (displayLinesBottomGo lines.length lines 0 s) fun _ s =>
  flushM s

/-- `TypeingTui::hide_cursor`. -/
def hide_cursor (s : Tui) : Option (Except String Unit × Tui) :=
  andThen (wr [.curHide] s) fun _ s => flushM s

/-- `TypeingTui::show_cursor`. -/
def show_cursor (s : Tui) : Option (Except String Unit × Tui) :=
  andThen (wr [.curShow] s) fun _ s => flushM s

/-- `TypeingTui::move_to_next_char`: the `write!` result is discarded
by the source, so only the cursor-model panic can abort. -/
def move_to_next_char (s : Tui) : Option (Except String Unit × Tui) :=
  match s.cursor_pos.nextc with
  | none => none
  | some ((x, y), cp) => some (.ok (), wrIgnore (.goto x y) { s with cursor_pos := cp })

/-- `TypeingTui::move_to_prev_char`: the `write!` result is discarded. -/
def move_to_prev_char (s : Tui) : Option (Except String Unit × Tui) :=
  match s.cursor_pos.prevc with
  | none => none
  | some ((x, y), cp) => some (.ok (), wrIgnore (.goto x y) { s with cursor_pos := cp })

/-- `TypeingTui::move_to_cur_pos`: the `write!` result is discarded. -/
def move_to_cur_pos (s : Tui) : Option (Except String Unit × Tui) :=
  match s.cursor_pos.cur_posc with
  | none => none
  | some (x, y) => some (.ok (), wrIgnore (.goto x y) s)

/-- `TypeingTui::replace_text` (concretised to `Text`). -/
def replace_text (t : Text) (s : Tui) : Option (Except String Unit × Tui) :=
  andThen (move_to_prev_char s) fun _ s =>
  andThen (display_raw_text t s) fun _ s =>
  move_to_cur_pos s

/-- `TypeingTui::display_words`.  The word-wrap loop and the rendered
lines are the shared pure definitions `wrapWords`/`displayWordsLines`. -/
def display_words (words : List String) (s : Tui) :
    Option (Except String (List Text) × Tui) :=
  let s := reset s
  let max_width := s.termW * 2 / 5
  let st := wrapWords words max_width
  let lines := displayWordsLines words max_width
  let max_word_len := max (st.max_word_len + 1) MIN_LINE_WIDTH
  if lines.length + s.bottom_lines_len + 2 > s.termH then
    some (.error (heightMsg (lines.length + s.bottom_lines_len + 2) s.termH), s)
  else if max_word_len > s.termW then
    some (.error (widthMsg max_word_len s.termW), s)
  else
    let s := { s with track_lines := true }
    andThen (display_lines (lines.map fun l => [l]) s) fun _ s =>
    let s := { s with track_lines := false }
    andThen (move_to_cur_pos s) fun _ s =>
    andThen (flushM s) fun _ s =>
    some (.ok lines, s)

/-- `impl Drop for TypeingTui`: one `write!` with the restore sequence
and one flush, each `.expect`ed (`none` models the panic on failure). -/
def dropRun (s : Tui) : Option Tui :=
  match wr [.clearAll, .steadyBlock, .goto 1 1] s with
  | some (.ok _, s) =>
    match flushM s with
    | some (.ok _, s) => some s
    | _ => none
  | _ => none

end TypeingTui

/-! ### Interpretation of a trace as visible terminal state -/

/-- Hardware cursor shape, as far as the program sets it. -/
inductive CursorShape where
  | initial : CursorShape
  | blinkingBar : CursorShape
  | steadyBlock : CursorShape
  deriving Repr, DecidableEq

/-- What a terminal shows after a trace: the text written since the
last full clear, the cursor shape, and cursor visibility. -/
structure TermView where
  screen : List Text
  shape : CursorShape
  visible : Bool
  deriving Repr

/-- Effect of one operation on the visible terminal state. -/
def viewStep (v : TermView) : TOp → TermView
  | .clearAll => { v with screen := [] }
  | .text t => { v with screen := v.screen ++ [t] }
  | .steadyBlock => { v with shape := .steadyBlock }
  | .blinkingBar => { v with shape := .blinkingBar }
  | .curHide => { v with visible := false }
  | .curShow => { v with visible := true }
  | _ => v

/-- Visible terminal state after a trace, starting from an empty screen
with initial shape and visibility `vis0`. -/
def viewOut (vis0 : Bool) (ops : List TOp) : TermView :=
  ops.foldl viewStep { screen := [], shape := .initial, visible := vis0 }

/-- `advance` as §4.3 of the spec describes it. -/
def cursorNextPure (c : CursorPos) : CursorPos :=
  if c.cur_char_in_line < (c.lines.getD c.cur_line d0).length - 1 then
    { c with cur_char_in_line := c.cur_char_in_line + 1 }
  else if c.cur_line + 1 < c.lines.length then
    { c with cur_line := c.cur_line + 1, cur_char_in_line := 0 }
  else c

/-- `retreat` as §4.3 of the spec describes it. -/
def cursorPrevPure (c : CursorPos) : CursorPos :=
  if 0 < c.cur_char_in_line then
    { c with cur_char_in_line := c.cur_char_in_line - 1 }
  else if 0 < c.cur_line then
    { c with cur_line := c.cur_line - 1, cur_char_in_line := (c.lines.getD (c.cur_line - 1) d0).length - 1 }
  else c

/-- Absolute coordinates `(line.x + column, line.y)` of a cursor state. -/
def cursorCoords (c : CursorPos) : Nat × Nat :=
  ((c.lines.getD c.cur_line d0).x + c.cur_char_in_line, (c.lines.getD c.cur_line d0).y)

lemma getD_lookup (l : List LinePos) (i : Nat) (h : i < l.length) :
    l[i]? = some (l.getD i d0) := by
  rw [List.getElem?_eq_getElem h, List.getD_eq_getElem?_getD, List.getElem?_eq_getElem h]
  rfl

lemma getD_mem (l : List LinePos) (i : Nat) (h : i < l.length) : l.getD i d0 ∈ l := by
  rw [List.getD_eq_getElem?_getD, List.getElem?_eq_getElem h]
  exact List.getElem_mem h

namespace CursorPos

lemma length_pos_getD {c : CursorPos} (h4 : ∀ l ∈ c.lines, 1 ≤ l.length)
    {i : Nat} (h : i < c.lines.length) :
    1 ≤ (c.lines.getD i d0).length :=
  h4 _ (getD_mem c.lines i h)

lemma cur_posc_wf (c : CursorPos) (hwf : c.WF) :
    c.cur_posc = some (cursorCoords c) := by
  unfold cur_posc cursorCoords
  rw [getD_lookup _ _ hwf.2.1]

lemma nextPure_wf (c : CursorPos) (hwf : c.WF) :
    (cursorNextPure c).WF ∧ (cursorNextPure c).lines = c.lines := by
  obtain ⟨h1, h2, h3, h4⟩ := hwf
  unfold cursorNextPure
  split
  · rename_i hc
    refine ⟨⟨h1, h2, ?_, h4⟩, rfl⟩
    show c.cur_char_in_line + 1 < (c.lines.getD c.cur_line d0).length
    omega
  · split
    · rename_i hc hl
      refine ⟨⟨h1, hl, ?_, h4⟩, rfl⟩
      show 0 < (c.lines.getD (c.cur_line + 1) d0).length
      exact length_pos_getD h4 hl
    · exact ⟨⟨h1, h2, h3, h4⟩, rfl⟩

lemma prevPure_wf (c : CursorPos) (hwf : c.WF) :
    (cursorPrevPure c).WF ∧ (cursorPrevPure c).lines = c.lines := by
  obtain ⟨h1, h2, h3, h4⟩ := hwf
  unfold cursorPrevPure
  split
  · rename_i hc
    refine ⟨⟨h1, h2, ?_, h4⟩, rfl⟩
    show c.cur_char_in_line - 1 < (c.lines.getD c.cur_line d0).length
    omega
  · split
    · rename_i hc hl
      have hl' : c.cur_line - 1 < c.lines.length := by omega
      refine ⟨⟨h1, hl', ?_, h4⟩, rfl⟩
      show (c.lines.getD (c.cur_line - 1) d0).length - 1 < (c.lines.getD (c.cur_line - 1) d0).length
      have := length_pos_getD h4 hl'
      omega
    · exact ⟨⟨h1, h2, h3, h4⟩, rfl⟩

lemma nextc_wf (c : CursorPos) (hwf : c.WF) :
    c.nextc = some (cursorCoords (cursorNextPure c), cursorNextPure c) := by
  have hwf' := nextPure_wf c hwf
  obtain ⟨h1, h2, h3, h4⟩ := hwf
  have hlen := length_pos_getD h4 h2
  unfold nextc
  rw [getD_lookup _ _ h2]
  simp only [sub16?, if_pos hlen]
  rw [show (if c.cur_char_in_line < (c.lines.getD c.cur_line d0).length - 1 then
        { c with cur_char_in_line := c.cur_char_in_line + 1 }
      else if c.cur_line + 1 < c.lines.length then
        { c with cur_line := c.cur_line + 1, cur_char_in_line := 0 }
      else c) = cursorNextPure c from rfl]
  rw [cur_posc_wf _ hwf'.1]

lemma prevc_wf (c : CursorPos) (hwf : c.WF) :
    c.prevc = some (cursorCoords (cursorPrevPure c), cursorPrevPure c) := by
  obtain ⟨h1, h2, h3, h4⟩ := hwf
  by_cases hc : 0 < c.cur_char_in_line
  · have hwf' : ({ c with cur_char_in_line := c.cur_char_in_line - 1 } : CursorPos).WF := by
      refine ⟨h1, h2, ?_, h4⟩
      show c.cur_char_in_line - 1 < (c.lines.getD c.cur_line d0).length
      omega
    unfold prevc cursorPrevPure
    simp only [if_pos hc]
    rw [cur_posc_wf _ hwf']
  · by_cases hl : 0 < c.cur_line
    · have hl' : c.cur_line - 1 < c.lines.length := by omega
      have hlen := length_pos_getD h4 hl'
      have hwf' : ({ c with cur_line := c.cur_line - 1, cur_char_in_line := (c.lines.getD (c.cur_line - 1) d0).length - 1 } : CursorPos).WF := by
        refine ⟨h1, hl', ?_, h4⟩
        show (c.lines.getD (c.cur_line - 1) d0).length - 1 < (c.lines.getD (c.cur_line - 1) d0).length
        omega
      unfold prevc cursorPrevPure
      simp only [if_neg hc, if_pos hl]
      rw [getD_lookup _ _ hl']
      simp only [sub16?, if_pos hlen]
      rw [cur_posc_wf _ hwf']
    · unfold prevc cursorPrevPure
      simp only [if_neg hc, if_neg hl]
      rw [cur_posc_wf _ ⟨h1, h2, h3, h4⟩]

end CursorPos

namespace CursorPos

lemma sum_take_getD {l : List LinePos} {i : Nat} (h : i < l.length) :
    ((l.map LinePos.length).take (i + 1)).sum
      = ((l.map LinePos.length).take i).sum + (l.getD i d0).length := by
  rw [List.sum_take_succ _ _ (by simpa using h)]
  congr 1
  simp [List.getD_eq_getElem?_getD, List.getElem?_eq_getElem h]

lemma posIndex_lt_totalLen (c : CursorPos) (hwf : c.WF) :
    c.posIndex < c.totalLen := by
  obtain ⟨h1, h2, h3, h4⟩ := hwf
  have hle := List.sum_take_add_sum_drop (c.lines.map LinePos.length) (c.cur_line + 1)
  have := sum_take_getD h2
  unfold posIndex totalLen
  omega

lemma take_sum_ge_index (c : CursorPos) (h4 : ∀ l ∈ c.lines, 1 ≤ l.length)
    {i : Nat} (h : i ≤ c.lines.length) :
    i ≤ ((c.lines.map LinePos.length).take i).sum := by
  induction i with
  | zero => simp
  | succ n ih =>
    have hn : n < c.lines.length := by omega
    have := sum_take_getD hn
    have hpos := length_pos_getD h4 hn
    have := ih (by omega)
    omega

lemma prevPure_posIndex (c : CursorPos) (hwf : c.WF) :
    (cursorPrevPure c).posIndex = c.posIndex - 1 ∧ (c.posIndex = 0 → cursorPrevPure c = c) := by
  obtain ⟨h1, h2, h3, h4⟩ := hwf
  unfold cursorPrevPure
  split
  · rename_i hc
    constructor
    · show ((c.lines.map LinePos.length).take c.cur_line).sum + (c.cur_char_in_line - 1)
        = c.posIndex - 1
      unfold posIndex
      omega
    · intro h0
      unfold posIndex at h0
      omega
  · split
    · rename_i hc hl
      have hl' : c.cur_line - 1 < c.lines.length := by omega
      have hsum := sum_take_getD (l := c.lines) (i := c.cur_line - 1) hl'
      have hback : c.cur_line - 1 + 1 = c.cur_line := by omega
      rw [hback] at hsum
      have hpos := length_pos_getD h4 hl'
      constructor
      · show ((c.lines.map LinePos.length).take (c.cur_line - 1)).sum
            + ((c.lines.getD (c.cur_line - 1) d0).length - 1) = c.posIndex - 1
        unfold posIndex
        omega
      · intro h0
        exfalso
        unfold posIndex at h0
        have hip := take_sum_ge_index c h4 (i := c.cur_line) (by omega)
        omega
    · rename_i hc hl
      have hline : c.cur_line = 0 := by omega
      have hchar : c.cur_char_in_line = 0 := by omega
      constructor
      · show c.posIndex = c.posIndex - 1
        unfold posIndex
        rw [hline, hchar]
        simp
      · intro _
        rfl

lemma posIndex_zero_origin (c : CursorPos) (h4 : ∀ l ∈ c.lines, 1 ≤ l.length)
    (h2 : c.cur_line < c.lines.length) (h0 : c.posIndex = 0) :
    c = ⟨c.lines, 0, 0⟩ := by
  unfold posIndex at h0
  have hip := take_sum_ge_index c h4 (i := c.cur_line) (by omega)
  have hl0 : c.cur_line = 0 := by omega
  have hc0 : c.cur_char_in_line = 0 := by omega
  cases c
  simp_all

end CursorPos

namespace CursorPos

lemma atLast_posIndex (c : CursorPos) (hwf : c.WF) :
    c.atLast ↔ c.posIndex = c.totalLen - 1 := by
  obtain ⟨h1, h2, h3, h4⟩ := hwf
  have hsum := sum_take_getD h2
  have hsplit := List.sum_take_add_sum_drop (c.lines.map LinePos.length) (c.cur_line + 1)
  constructor
  · rintro ⟨ha, hb⟩
    have hdrop : ((c.lines.map LinePos.length).drop (c.cur_line + 1)).sum = 0 := by
      have : (c.lines.map LinePos.length).drop (c.cur_line + 1) = [] := by
        apply List.drop_eq_nil_of_le
        simpa using le_of_eq ha.symm
      rw [this]
      rfl
    unfold posIndex totalLen
    omega
  · intro hp
    have hip := take_sum_ge_index c h4 (i := c.cur_line) (by omega)
    -- from posIndex = total - 1 and posIndex < sum(take (i+1)) ≤ total we get
    -- sum(drop (i+1)) = 0, hence the dropped lines are all empty, hence none remain
    have hlt : c.posIndex < ((c.lines.map LinePos.length).take (c.cur_line + 1)).sum := by
      unfold posIndex
      omega
    have htot : 1 ≤ c.totalLen := by
      unfold totalLen
      unfold posIndex at hp
      have := length_pos_getD h4 h2
      omega
    have hdrop0 : ((c.lines.map LinePos.length).drop (c.cur_line + 1)).sum = 0 := by
      unfold totalLen at hp htot
      unfold posIndex at hp hlt
      omega
    have hlast : c.cur_line + 1 = c.lines.length := by
      by_contra hne
      have hlt2 : c.cur_line + 1 < c.lines.length := by omega
      have hmem : (c.lines.getD (c.cur_line + 1) d0).length
          ∈ (c.lines.map LinePos.length).drop (c.cur_line + 1) := by
        have : (c.lines.map LinePos.length).drop (c.cur_line + 1)
            = (c.lines.drop (c.cur_line + 1)).map LinePos.length := by
          simp [List.map_drop]
        rw [this]
        refine List.mem_map.mpr ⟨c.lines.getD (c.cur_line + 1) d0, ?_, rfl⟩
        rw [List.getD_eq_getElem?_getD, List.getElem?_eq_getElem hlt2]
        refine List.mem_iff_getElem.mpr ⟨0, ?_, ?_⟩
        · simpa using hlt2
        · simp
      have hpos := length_pos_getD h4 hlt2
      have := List.le_sum_of_mem hmem
      omega
    refine ⟨hlast, ?_⟩
    unfold posIndex totalLen at hp htot
    omega

end CursorPos

namespace CursorPos

lemma nextPure_posIndex (c : CursorPos) (hwf : c.WF) :
    (c.atLast → cursorNextPure c = c) ∧
    (¬ c.atLast → (cursorNextPure c).posIndex = c.posIndex + 1) := by
  obtain ⟨h1, h2, h3, h4⟩ := hwf
  have hsum := sum_take_getD h2
  constructor
  · rintro ⟨ha, hb⟩
    unfold cursorNextPure
    rw [if_neg (by omega), if_neg (by omega)]
  · intro hnl
    unfold cursorNextPure
    by_cases hc : c.cur_char_in_line < (c.lines.getD c.cur_line d0).length - 1
    · rw [if_pos hc]
      show ((c.lines.map LinePos.length).take c.cur_line).sum + (c.cur_char_in_line + 1)
          = c.posIndex + 1
      unfold posIndex
      omega
    · rw [if_neg hc]
      have hlen := length_pos_getD h4 h2
      have hchar : c.cur_char_in_line + 1 = (c.lines.getD c.cur_line d0).length := by omega
      have hl : c.cur_line + 1 < c.lines.length := by
        rcases Nat.lt_or_ge (c.cur_line + 1) c.lines.length with h | h
        · exact h
        · exfalso
          exact hnl ⟨by omega, hchar⟩
      rw [if_pos hl]
      show ((c.lines.map LinePos.length).take (c.cur_line + 1)).sum + 0 = c.posIndex + 1
      unfold posIndex
      omega

lemma iterPrev_converges (n : Nat) :
    ∀ c : CursorPos, c.WF → c.posIndex ≤ n → c.iterPrevN n = some ⟨c.lines, 0, 0⟩ := by
  induction n with
  | zero =>
    intro c hwf h0
    have := posIndex_zero_origin c hwf.2.2.2 hwf.2.1 (by omega)
    unfold iterPrevN
    rw [← this]
  | succ n ih =>
    intro c hwf hle
    have hstep := prevc_wf c hwf
    have hwf' := prevPure_wf c hwf
    have hidx := prevPure_posIndex c hwf
    unfold iterPrevN
    rw [hstep]
    show iterPrevN n (cursorPrevPure c) = some ⟨c.lines, 0, 0⟩
    have := ih (cursorPrevPure c) hwf'.1 (by omega)
    rw [this, hwf'.2]

lemma iterNext_converges (n : Nat) :
    ∀ c : CursorPos, c.WF → c.totalLen - 1 - c.posIndex ≤ n →
      c.iterNextN n
        = some ⟨c.lines, c.lines.length - 1, (c.lines.getD (c.lines.length - 1) d0).length - 1⟩ := by
  induction n with
  | zero =>
    intro c hwf h0
    have hlt := posIndex_lt_totalLen c hwf
    have hlast : c.atLast := (atLast_posIndex c hwf).mpr (by omega)
    obtain ⟨ha, hb⟩ := hlast
    have hline : c.cur_line = c.lines.length - 1 := by omega
    have hchar : c.cur_char_in_line = (c.lines.getD (c.lines.length - 1) d0).length - 1 := by
      rw [← hline]
      omega
    unfold iterNextN
    cases c
    simp_all
  | succ n ih =>
    intro c hwf hle
    have hstep := nextc_wf c hwf
    have hwf' := nextPure_wf c hwf
    have hidx := nextPure_posIndex c hwf
    unfold iterNextN
    rw [hstep]
    show iterNextN n (cursorNextPure c)
      = some ⟨c.lines, c.lines.length - 1, (c.lines.getD (c.lines.length - 1) d0).length - 1⟩
    by_cases hl : c.atLast
    · have hfix := hidx.1 hl
      have hpi := (atLast_posIndex c hwf).mp hl
      rw [hfix]
      exact ih c hwf (by omega)
    · have hlt := posIndex_lt_totalLen c hwf
      have hpi := hidx.2 hl
      have htl : (cursorNextPure c).totalLen = c.totalLen := by
        unfold totalLen
        rw [hwf'.2]
      have := ih (cursorNextPure c) hwf'.1 (by omega)
      rw [this, hwf'.2]

end CursorPos

namespace CursorPos

lemma prev_next_cancel (c : CursorPos) (hwf : c.WF) (hnl : ¬ c.atLast) :
    cursorPrevPure (cursorNextPure c) = c := by
  obtain ⟨h1, h2, h3, h4⟩ := hwf
  by_cases hc : c.cur_char_in_line < (c.lines.getD c.cur_line d0).length - 1
  · have h : cursorNextPure c = { c with cur_char_in_line := c.cur_char_in_line + 1 } := by
      unfold cursorNextPure
      rw [if_pos hc]
    rw [h]
    unfold cursorPrevPure
    rw [if_pos (show 0 < c.cur_char_in_line + 1 by omega)]
    show ({ c with cur_char_in_line := c.cur_char_in_line + 1 - 1 } : CursorPos) = c
    cases c
    simp
  · by_cases hl : c.cur_line + 1 < c.lines.length
    · have h : cursorNextPure c = { c with cur_line := c.cur_line + 1, cur_char_in_line := 0 } := by
        unfold cursorNextPure
        rw [if_neg hc, if_pos hl]
      rw [h]
      unfold cursorPrevPure
      rw [if_neg (show ¬ (0 : Nat) < 0 by omega), if_pos (show 0 < c.cur_line + 1 by omega)]
      show ({ c with cur_line := c.cur_line + 1 - 1, cur_char_in_line := (c.lines.getD (c.cur_line + 1 - 1) d0).length - 1 } : CursorPos) = c
      have hchar : c.cur_char_in_line = (c.lines.getD c.cur_line d0).length - 1 := by omega
      cases c
      simp_all
    · exact absurd ⟨by omega, by omega⟩ hnl

lemma prevPure_origin (c : CursorPos) (hl : c.cur_line = 0) (hc : c.cur_char_in_line = 0) :
    cursorPrevPure c = c := by
  unfold cursorPrevPure
  rw [if_neg (by omega), if_neg (by omega)]

lemma nextPure_atLast (c : CursorPos) (hl : c.atLast) :
    cursorNextPure c = c := by
  obtain ⟨ha, hb⟩ := hl
  unfold cursorNextPure
  rw [if_neg (by omega), if_neg (by omega)]

end CursorPos

/-! ### Claims C4, C7, C10: the cursor model -/

/-- C4: for every well-formed cursor state, `next` increments the column
index when it is below the current line's `length - 1`, otherwise moves
to the next line at column 0 if one exists, otherwise leaves the state
unchanged; `prev` decrements the column index when positive, otherwise
moves to the previous line at its last valid index if one exists,
otherwise leaves the state unchanged; both return the absolute terminal
coordinates `(line.x + column, line.y)` of the resulting position
(`cursorNextPure`, `cursorPrevPure` and `cursorCoords` spell out
exactly the claimed behaviour). -/
theorem C4_advance_retreat_behaviour (c : CursorPos) (hwf : c.WF) :
    c.nextc = some (cursorCoords (cursorNextPure c), cursorNextPure c) ∧
    c.prevc = some (cursorCoords (cursorPrevPure c), cursorPrevPure c) :=
  ⟨CursorPos.nextc_wf c hwf, CursorPos.prevc_wf c hwf⟩

/-- Witness for C4 at the concrete state (two lines of lengths 3 and 2,
cursor at line 0, column 2): `next` wraps to line 1 column 0 at
coordinates (6, 3); `prev` moves back to column 1 at coordinates (6, 2). -/
theorem C4_advance_retreat_behaviour_witness :
    CursorPos.WF ⟨[⟨2, 5, 3⟩, ⟨3, 6, 2⟩], 0, 2⟩ ∧
    (CursorPos.nextc ⟨[⟨2, 5, 3⟩, ⟨3, 6, 2⟩], 0, 2⟩
        = some ((6, 3), ⟨[⟨2, 5, 3⟩, ⟨3, 6, 2⟩], 1, 0⟩) ∧
      CursorPos.prevc ⟨[⟨2, 5, 3⟩, ⟨3, 6, 2⟩], 0, 2⟩
        = some ((6, 2), ⟨[⟨2, 5, 3⟩, ⟨3, 6, 2⟩], 0, 1⟩)) :=
  ⟨by decide, C4_advance_retreat_behaviour ⟨[⟨2, 5, 3⟩, ⟨3, 6, 2⟩], 0, 2⟩ (by decide)⟩

/-- C7: away from the last position, `advance` followed by `retreat`
returns to the original state; at the last position `advance` is a
no-op and at the first position `retreat` is a no-op (each returning
the current coordinates); iterating `retreat` at least `totalLen` times
reaches line 0, column 0 and stays there, and iterating `advance` at
least `totalLen` times reaches the last line's last column and stays
there. -/
theorem C7_advance_retreat_inverse_and_convergence (c : CursorPos) (hwf : c.WF) :
    (¬ c.atLast → ∀ p c', c.nextc = some (p, c') →
      ∀ q c'', c'.prevc = some (q, c'') → c'' = c) ∧
    (c.atLast → c.nextc = some (cursorCoords c, c)) ∧
    (c.cur_line = 0 → c.cur_char_in_line = 0 → c.prevc = some (cursorCoords c, c)) ∧
    (∀ n, c.totalLen ≤ n → c.iterPrevN n = some ⟨c.lines, 0, 0⟩) ∧
    (∀ n, c.totalLen ≤ n → c.iterNextN n
        = some ⟨c.lines, c.lines.length - 1, (c.lines.getD (c.lines.length - 1) d0).length - 1⟩) := by
  refine ⟨?_, ?_, ?_, ?_, ?_⟩
  · intro hnl p c' hn q c'' hp
    rw [CursorPos.nextc_wf c hwf] at hn
    injection hn with h1
    injection h1 with hpq hcc
    subst hcc
    rw [CursorPos.prevc_wf _ (CursorPos.nextPure_wf c hwf).1] at hp
    injection hp with h2
    injection h2 with hq hcc'
    subst hcc'
    exact CursorPos.prev_next_cancel c hwf hnl
  · intro hl
    have h := CursorPos.nextc_wf c hwf
    rw [CursorPos.nextPure_atLast c hl] at h
    exact h
  · intro hl hc
    have h := CursorPos.prevc_wf c hwf
    rw [CursorPos.prevPure_origin c hl hc] at h
    exact h
  · intro n hn
    have hlt := CursorPos.posIndex_lt_totalLen c hwf
    exact CursorPos.iterPrev_converges n c hwf (by omega)
  · intro n hn
    have hlt := CursorPos.posIndex_lt_totalLen c hwf
    exact CursorPos.iterNext_converges n c hwf (by omega)

/-- Witness for C7 at a single tracked line of length 2, cursor at the
origin: two retreats stay at the origin, two advances reach and hold
the last column. -/
theorem C7_advance_retreat_inverse_and_convergence_witness :
    CursorPos.WF ⟨[⟨1, 4, 2⟩], 0, 0⟩ ∧ CursorPos.totalLen ⟨[⟨1, 4, 2⟩], 0, 0⟩ ≤ 2 ∧
    (CursorPos.iterPrevN 2 ⟨[⟨1, 4, 2⟩], 0, 0⟩ = some ⟨[⟨1, 4, 2⟩], 0, 0⟩ ∧
      CursorPos.iterNextN 2 ⟨[⟨1, 4, 2⟩], 0, 0⟩ = some ⟨[⟨1, 4, 2⟩], 0, 1⟩) :=
  ⟨by decide, by decide,
    (C7_advance_retreat_inverse_and_convergence ⟨[⟨1, 4, 2⟩], 0, 0⟩ (by decide)).2.2.2.1
      2 (by decide),
    (C7_advance_retreat_inverse_and_convergence ⟨[⟨1, 4, 2⟩], 0, 0⟩ (by decide)).2.2.2.2
      2 (by decide)⟩

/-- C10: under the precondition (at least one tracked line, every line
of length ≥ 1, valid indices) `next`, `prev` and `cur_pos` all succeed;
in the empty state (as after `TypeingTui::reset` or construction) each
of them panics on the empty line list (`none` in the embedding); and a
recorded line of length 0 makes `next` underflow the unsigned
`length - 1` (again `none`). -/
theorem C10_cursor_ops_partial_without_lines :
    (∀ c : CursorPos, c.WF →
      (∃ r, c.nextc = some r) ∧ (∃ r, c.prevc = some r) ∧ (∃ p, c.cur_posc = some p)) ∧
    (∀ s : Tui, (TypeingTui.reset s).cursor_pos = CursorPos.new) ∧
    CursorPos.new.nextc = none ∧
    CursorPos.new.prevc = none ∧
    CursorPos.new.cur_posc = none ∧
    (∀ c : CursorPos, ∀ line, c.lines[c.cur_line]? = some line → line.length = 0 →
      c.nextc = none) := by
  refine ⟨?_, fun s => rfl, by decide, by decide, by decide, ?_⟩
  · intro c hwf
    exact ⟨⟨_, CursorPos.nextc_wf c hwf⟩, ⟨_, CursorPos.prevc_wf c hwf⟩,
      ⟨_, CursorPos.cur_posc_wf c hwf⟩⟩
  · intro c line hline h0
    simp only [CursorPos.nextc, hline]
    simp [sub16?, h0]

/-- Witness for C10: a well-formed one-line state on which all three
operations succeed. -/
theorem C10_cursor_ops_partial_without_lines_witness :
    CursorPos.WF ⟨[⟨1, 1, 2⟩], 0, 0⟩ ∧ (∃ r, CursorPos.nextc ⟨[⟨1, 1, 2⟩], 0, 0⟩ = some r) :=
  ⟨by decide,
    ((C10_cursor_ops_partial_without_lines).1 ⟨[⟨1, 1, 2⟩], 0, 0⟩ (by decide)).1⟩

/-! ### Claim C9: styling is plain-form and width preserving -/

/-- C9: every styling operation keeps the plain form and the visual
width of a `Text` unchanged, wrapping only the display form; two
different styles applied to the same base text give equal plain
forms and widths but different display forms. -/
theorem C9_styling_preserves_plain_and_width (t : Text) (cfg : String) :
    t.with_faint.text = t.text ∧ t.with_faint.length = t.length ∧
    t.with_underline.text = t.text ∧ t.with_underline.length = t.length ∧
    (t.with_color cfg).text = t.text ∧ (t.with_color cfg).length = t.length ∧
    t.with_faint.text = t.with_underline.text ∧
    t.with_faint.length = t.with_underline.length ∧
    t.with_faint.raw_text ≠ t.with_underline.raw_text := by
  refine ⟨rfl, rfl, rfl, rfl, rfl, rfl, rfl, rfl, ?_⟩
  intro h
  have hlen := congrArg String.length h
  simp only [Text.with_faint, Text.with_underline, String.length_append] at hlen
  have h1 : faintOn.length = 4 := by decide
  have h2 : faintOff.length = 5 := by decide
  have h3 : underlineOn.length = 4 := by decide
  have h4 : styleReset.length = 3 := by decide
  omega

/-- Witness for C9 at the base text "ab" and the red foreground escape. -/
theorem C9_styling_preserves_plain_and_width_witness :
    (Text.new "ab").with_faint.text = (Text.new "ab").text ∧
    (Text.new "ab").with_faint.length = (Text.new "ab").length ∧
    (Text.new "ab").with_underline.text = (Text.new "ab").text ∧
    (Text.new "ab").with_underline.length = (Text.new "ab").length ∧
    ((Text.new "ab").with_color "\x1b[31m").text = (Text.new "ab").text ∧
    ((Text.new "ab").with_color "\x1b[31m").length = (Text.new "ab").length ∧
    (Text.new "ab").with_faint.text = (Text.new "ab").with_underline.text ∧
    (Text.new "ab").with_faint.length = (Text.new "ab").with_underline.length ∧
    (Text.new "ab").with_faint.raw_text ≠ (Text.new "ab").with_underline.raw_text :=
  C9_styling_preserves_plain_and_width (Text.new "ab") "\x1b[31m"

/-! ### Layout lemmas (claims C2 and C3) -/

lemma joinSp_data_ne_nil {l : List String} (hl : l ≠ [])
    (hw : ∀ w ∈ l, w ≠ "") : (joinSp l).data ≠ [] := by
  match l, hl with
  | [w], _ =>
    show w.data ≠ []
    intro hd
    refine hw w (by simp) (String.ext_iff.mpr ?_)
    rw [hd]
  | w :: v :: rest, _ =>
    show (w ++ " " ++ joinSp (v :: rest)).data ≠ []
    intro hd
    rw [String.data_append, String.data_append] at hd
    simp at hd

lemma joinSp_last_not_space {l : List String}
    (hw : ∀ w ∈ l, w ≠ "" ∧ ¬ ' ' ∈ w.data) :
    (joinSp l).data.getLast? ≠ some ' ' := by
  induction l with
  | nil =>
    show (joinSp []).data.getLast? ≠ some ' '
    simp [joinSp]
  | cons w rest ih =>
    match rest with
    | [] =>
      show w.data.getLast? ≠ some ' '
      intro h
      obtain ⟨hne, heq⟩ := List.mem_getLast?_eq_getLast (Option.mem_def.mpr h)
      exact (hw w (by simp)).2 (heq ▸ List.getLast_mem hne)
    | v :: rest' =>
      show ((w ++ " " ++ joinSp (v :: rest')).data).getLast? ≠ some ' '
      have hdata : (joinSp (v :: rest')).data ≠ [] :=
        joinSp_data_ne_nil (by simp) (fun u hu => (hw u (by simp [hu])).1)
      rw [String.data_append, String.data_append, List.append_assoc,
        List.getLast?_append_of_ne_nil _ (by simp [hdata]),
        List.getLast?_append_of_ne_nil _ hdata]
      exact ih (fun u hu => hw u (by simp [hu]))

lemma wrap_linesT (mw : Nat) (ws : List String) :
    ∀ st : WrapSt, st.linesT = st.linesW.map closeLine →
      (List.foldl (wrapStep mw) st ws).linesT
        = (List.foldl (wrapStep mw) st ws).linesW.map closeLine := by
  induction ws with
  | nil => intro st h; exact h
  | cons w rest ih =>
    intro st h
    simp only [List.foldl_cons]
    refine ih _ ?_
    simp only [wrapStep]
    split
    · exact h
    · simp [h]

lemma wrap_flatten (mw : Nat) (ws : List String) :
    ∀ st : WrapSt,
      (List.foldl (wrapStep mw) st ws).linesW.flatten ++ (List.foldl (wrapStep mw) st ws).line
        = st.linesW.flatten ++ st.line ++ ws := by
  induction ws with
  | nil => intro st; simp
  | cons w rest ih =>
    intro st
    simp only [List.foldl_cons]
    rw [ih]
    simp only [wrapStep]
    split
    · simp
    · simp

lemma wrap_count (mw : Nat) (ws : List String) :
    ∀ st : WrapSt,
      (∀ l ∈ st.linesW, l.length ≤ MAX_WORDS_PER_LINE) →
      st.line.length ≤ MAX_WORDS_PER_LINE →
      ((∀ l ∈ (List.foldl (wrapStep mw) st ws).linesW, l.length ≤ MAX_WORDS_PER_LINE) ∧
        (List.foldl (wrapStep mw) st ws).line.length ≤ MAX_WORDS_PER_LINE) := by
  induction ws with
  | nil => intro st h1 h2; exact ⟨h1, h2⟩
  | cons w rest ih =>
    intro st h1 h2
    simp only [List.foldl_cons]
    refine ih _ ?_ ?_
    · show ∀ l ∈ (wrapStep mw st w).linesW, l.length ≤ MAX_WORDS_PER_LINE
      simp only [wrapStep]
      split
      · exact h1
      · intro l hl
        simp only [List.mem_append, List.mem_singleton] at hl
        rcases hl with hl | hl
        · exact h1 l hl
        · rw [hl]; exact h2
    · show (wrapStep mw st w).line.length ≤ MAX_WORDS_PER_LINE
      simp only [wrapStep]
      split
      · rename_i hcond
        simp only [List.length_append, List.length_singleton]
        omega
      · simp [MAX_WORDS_PER_LINE]

lemma wrap_mwl (mw : Nat) (ws : List String) :
    ∀ st : WrapSt, (List.foldl (wrapStep mw) st ws).max_word_len
      = ws.foldl (fun m w => max m (w.utf8ByteSize + 1)) st.max_word_len := by
  induction ws with
  | nil => intro st; rfl
  | cons w rest ih =>
    intro st
    simp only [List.foldl_cons]
    rw [ih]
    congr 1
    simp only [wrapStep]
    split
    · rfl
    · rfl

lemma foldl_max_shift (ws : List String) :
    ∀ a : Nat, ws.foldl (fun m w => max m (w.utf8ByteSize + 1)) (a + 1)
      = ws.foldl (fun m w => max m w.utf8ByteSize) a + 1 := by
  induction ws with
  | nil => intro a; rfl
  | cons w rest ih =>
    intro a
    simp only [List.foldl_cons]
    rw [show max (a + 1) (w.utf8ByteSize + 1) = max a w.utf8ByteSize + 1 from by omega]
    exact ih _

lemma wrapWords_mwl (ws : List String) (mw : Nat) (hne : ws ≠ []) :
    (wrapWords ws mw).max_word_len = longestWordLen ws + 1 := by
  match ws, hne with
  | w :: rest, _ =>
    unfold wrapWords longestWordLen
    rw [wrap_mwl]
    simp only [List.foldl_cons]
    show rest.foldl (fun m w => max m (w.utf8ByteSize + 1)) (max 0 (w.utf8ByteSize + 1)) = _
    rw [show max 0 (w.utf8ByteSize + 1) = w.utf8ByteSize + 1 from by omega,
      foldl_max_shift rest w.utf8ByteSize,
      show (max 0 w.utf8ByteSize : Nat) = w.utf8ByteSize from by omega]

lemma displayWordsLinesW_flatten (ws : List String) (mw : Nat) :
    (displayWordsLinesW ws mw).flatten = ws := by
  unfold displayWordsLinesW wrapWords
  have := wrap_flatten mw ws ⟨0, 0, [], [], []⟩
  simp only [List.flatten_append, List.flatten_cons, List.flatten_nil] at *
  simpa using this

lemma displayWordsLinesW_count (ws : List String) (mw : Nat) :
    ∀ l ∈ displayWordsLinesW ws mw, l.length ≤ MAX_WORDS_PER_LINE := by
  unfold displayWordsLinesW wrapWords
  have h := wrap_count mw ws ⟨0, 0, [], [], []⟩ (by simp) (by simp [MAX_WORDS_PER_LINE])
  intro l hl
  simp only [List.mem_append, List.mem_singleton] at hl
  rcases hl with hl | hl
  · exact h.1 l hl
  · rw [hl]; exact h.2

lemma displayWordsLines_text (ws : List String) (mw : Nat) :
    (displayWordsLines ws mw).map Text.text
      = (displayWordsLinesW ws mw).dropLast.map (fun l => joinSp l ++ " ")
        ++ [joinSp ((displayWordsLinesW ws mw).getLastD [])] := by
  simp only [displayWordsLines, displayWordsLinesW, wrapWords]
  rw [List.dropLast_concat, List.getLastD_concat,
    wrap_linesT mw ws ⟨0, 0, [], [], []⟩ (by simp)]
  simp only [List.map_append, List.map_map, List.map_cons, List.map_nil]
  rfl

/-! ### Claim C2: the line layout -/

/-- C2: for a non-empty list of words (non-empty, space-free strings)
and a terminal width of at least the longest word plus 2, the layout
places every input word in exactly one output line in the original
order (the concatenation of the per-line word lists is the input), no
line holds more than `MAX_WORDS_PER_LINE` words, each rendered line is
its words joined by single spaces with one trailing space added on all
but the last line, and no joined line itself ends in a space (so the
trailing space is exactly one, and the last line has none). -/
theorem C2_layout_partition (words : List String) (W : Nat)
    (hne : words ≠ []) (hgood : ∀ w ∈ words, w ≠ "" ∧ ¬ ' ' ∈ w.data)
    (hW : longestWordLen words + 2 ≤ W) :
    (displayWordsLinesW words (W * 2 / 5)).flatten = words ∧
    (∀ l ∈ displayWordsLinesW words (W * 2 / 5), l.length ≤ MAX_WORDS_PER_LINE) ∧
    (displayWordsLines words (W * 2 / 5)).map Text.text
      = (displayWordsLinesW words (W * 2 / 5)).dropLast.map (fun l => joinSp l ++ " ")
        ++ [joinSp ((displayWordsLinesW words (W * 2 / 5)).getLastD [])] ∧
    (∀ l ∈ displayWordsLinesW words (W * 2 / 5), (joinSp l).data.getLast? ≠ some ' ') := by
  refine ⟨displayWordsLinesW_flatten words (W * 2 / 5),
    displayWordsLinesW_count words (W * 2 / 5),
    displayWordsLines_text words (W * 2 / 5), ?_⟩
  intro l hl
  refine joinSp_last_not_space ?_
  intro w hw
  refine hgood w ?_
  rw [← displayWordsLinesW_flatten words (W * 2 / 5)]
  exact List.mem_flatten.mpr ⟨l, hl, hw⟩

/-- Witness for C2 on the spec's scenario: four words at width 80 all
fit on one line, joined by single spaces, with no trailing space on
that (last) line. -/
theorem C2_layout_partition_witness :
    (∀ w ∈ ["the", "quick", "brown", "fox"], w ≠ "" ∧ ¬ ' ' ∈ w.data) ∧
    longestWordLen ["the", "quick", "brown", "fox"] + 2 ≤ 80 ∧
    (displayWordsLinesW ["the", "quick", "brown", "fox"] (80 * 2 / 5)).flatten
      = ["the", "quick", "brown", "fox"] :=
  ⟨by decide, by decide,
    (C2_layout_partition ["the", "quick", "brown", "fox"] 80 (by decide) (by decide)
      (by decide)).1⟩

/-! ### Run lemmas for the terminal surface on a healthy device -/

lemma emits_track (s : Tui) (ops : List TOp) : (Tui.emits s ops).track_lines = s.track_lines := by
  induction ops generalizing s with
  | nil => rfl
  | cons op rest ih => exact ih (s.emit op)

lemma emits_failAt (s : Tui) (ops : List TOp) : (Tui.emits s ops).failAt = s.failAt := by
  induction ops generalizing s with
  | nil => rfl
  | cons op rest ih => exact ih (s.emit op)

lemma emits_cursor (s : Tui) (ops : List TOp) : (Tui.emits s ops).cursor_pos = s.cursor_pos := by
  induction ops generalizing s with
  | nil => rfl
  | cons op rest ih => exact ih (s.emit op)

lemma emits_bottom (s : Tui) (ops : List TOp) :
    (Tui.emits s ops).bottom_lines_len = s.bottom_lines_len := by
  induction ops generalizing s with
  | nil => rfl
  | cons op rest ih => exact ih (s.emit op)

lemma emits_termW (s : Tui) (ops : List TOp) : (Tui.emits s ops).termW = s.termW := by
  induction ops generalizing s with
  | nil => rfl
  | cons op rest ih => exact ih (s.emit op)

lemma emits_termH (s : Tui) (ops : List TOp) : (Tui.emits s ops).termH = s.termH := by
  induction ops generalizing s with
  | nil => rfl
  | cons op rest ih => exact ih (s.emit op)

lemma emits_out (s : Tui) (ops : List TOp) : (Tui.emits s ops).out = s.out ++ ops := by
  induction ops generalizing s with
  | nil => simp [Tui.emits]
  | cons op rest ih =>
    show (Tui.emits (s.emit op) rest).out = s.out ++ op :: rest
    rw [ih (s.emit op)]
    show (s.out ++ [op]) ++ rest = s.out ++ op :: rest
    simp

lemma wr_ok (ops : List TOp) (s : Tui) (h : s.failAt = none) :
    wr ops s = some (.ok (), Tui.emits { s with writesDone := s.writesDone + 1 } ops) := by
  unfold wr
  rw [h]
  simp

lemma flushM_ok (s : Tui) (h : s.failAt = none) :
    flushM s = some (.ok (), { s with writesDone := s.writesDone + 1 }) := by
  unfold flushM
  rw [h]
  simp

lemma wrIgnore_ok (op : TOp) (s : Tui) (h : s.failAt = none) :
    wrIgnore op s = Tui.emits { s with writesDone := s.writesDone + 1 } [op] := by
  unfold wrIgnore
  rw [h]
  simp

lemma recordLine_failAt (len : Nat) (s : Tui) : (TypeingTui.recordLine len s).failAt = s.failAt := by
  unfold TypeingTui.recordLine
  split
  · rfl
  · rfl

lemma recordLine_track (len : Nat) (s : Tui) :
    (TypeingTui.recordLine len s).track_lines = s.track_lines := by
  unfold TypeingTui.recordLine
  split
  · rfl
  · rfl

lemma recordLine_bottom (len : Nat) (s : Tui) :
    (TypeingTui.recordLine len s).bottom_lines_len = s.bottom_lines_len := by
  unfold TypeingTui.recordLine
  split
  · rfl
  · rfl

lemma recordLine_termW (len : Nat) (s : Tui) : (TypeingTui.recordLine len s).termW = s.termW := by
  unfold TypeingTui.recordLine
  split
  · rfl
  · rfl

lemma recordLine_termH (len : Nat) (s : Tui) : (TypeingTui.recordLine len s).termH = s.termH := by
  unfold TypeingTui.recordLine
  split
  · rfl
  · rfl

lemma recordLine_cur_line (len : Nat) (s : Tui) :
    (TypeingTui.recordLine len s).cursor_pos.cur_line = s.cursor_pos.cur_line := by
  unfold TypeingTui.recordLine
  split
  · rfl
  · rfl

lemma recordLine_cur_char (len : Nat) (s : Tui) :
    (TypeingTui.recordLine len s).cursor_pos.cur_char_in_line
      = s.cursor_pos.cur_char_in_line := by
  unfold TypeingTui.recordLine
  split
  · rfl
  · rfl

lemma recordLine_lines_length (len : Nat) (s : Tui) :
    (TypeingTui.recordLine len s).cursor_pos.lines.length
      = s.cursor_pos.lines.length + (if s.track_lines then 1 else 0) := by
  unfold TypeingTui.recordLine
  split
  · simp
  · simp

lemma dispTexts_ok (ts : List Text) : ∀ s : Tui, s.failAt = none →
    ∃ s', TypeingTui.dispTexts ts s = some (.ok (), s') ∧ s'.failAt = none ∧
      s'.track_lines = s.track_lines ∧ s'.bottom_lines_len = s.bottom_lines_len ∧
      s'.termW = s.termW ∧ s'.termH = s.termH ∧ s'.cursor_pos = s.cursor_pos := by
  induction ts with
  | nil =>
    intro s h
    exact ⟨s, rfl, h, rfl, rfl, rfl, rfl, rfl⟩
  | cons t rest ih =>
    intro s h
    have hw := wr_ok [.text t] s h
    obtain ⟨s', hrun, hfa, htr, hbl, hW, hH, hcp⟩ :=
      ih (Tui.emits { s with writesDone := s.writesDone + 1 } [.text t])
        (by rw [emits_failAt]; exact h)
    refine ⟨s', ?_, hfa, by rw [htr, emits_track], by rw [hbl, emits_bottom],
      by rw [hW, emits_termW], by rw [hH, emits_termH], by rw [hcp, emits_cursor]⟩
    show andThen (TypeingTui.display_raw_text t s) (fun _ s => TypeingTui.dispTexts rest s)
      = some (.ok (), s')
    unfold TypeingTui.display_raw_text
    rw [hw]
    exact hrun

lemma display_a_line_raw_ok (text : List Text) (s : Tui) (h : s.failAt = none) :
    ∃ s', TypeingTui.display_a_line_raw text s = some (.ok (), s') ∧ s'.failAt = none ∧
      s'.track_lines = s.track_lines ∧ s'.bottom_lines_len = s.bottom_lines_len ∧
      s'.termW = s.termW ∧ s'.termH = s.termH ∧
      s'.cursor_pos.cur_line = s.cursor_pos.cur_line ∧
      s'.cursor_pos.cur_char_in_line = s.cursor_pos.cur_char_in_line ∧
      s'.cursor_pos.lines.length
        = s.cursor_pos.lines.length + (if s.track_lines then 1 else 0) := by
  have hw1 := wr_ok [.left (text.length / 2)] s h
  obtain ⟨s3, hrun3, hfa3, htr3, hbl3, hW3, hH3, hcp3⟩ :=
    dispTexts_ok text
      (TypeingTui.recordLine text.length
        (Tui.emits { s with writesDone := s.writesDone + 1 } [.left (text.length / 2)]))
      (by rw [recordLine_failAt, emits_failAt]; exact h)
  have hw2 := wr_ok [.left text.length] s3 hfa3
  refine ⟨Tui.emits { s3 with writesDone := s3.writesDone + 1 } [.left text.length],
    ?_, ?_, ?_, ?_, ?_, ?_, ?_, ?_, ?_⟩
  · unfold TypeingTui.display_a_line_raw
    rw [hw1]
    show andThen (TypeingTui.dispTexts text (TypeingTui.recordLine text.length _)) _ = _
    rw [hrun3]
    show wr [.left text.length] s3 = _
    rw [hw2]
  · rw [emits_failAt]
    exact hfa3
  · rw [emits_track]
    show s3.track_lines = _
    rw [htr3, recordLine_track, emits_track]
  · rw [emits_bottom]
    show s3.bottom_lines_len = _
    rw [hbl3, recordLine_bottom, emits_bottom]
  · rw [emits_termW]
    show s3.termW = _
    rw [hW3, recordLine_termW, emits_termW]
  · rw [emits_termH]
    show s3.termH = _
    rw [hH3, recordLine_termH, emits_termH]
  · rw [emits_cursor]
    show s3.cursor_pos.cur_line = _
    rw [hcp3, recordLine_cur_line, emits_cursor]
  · rw [emits_cursor]
    show s3.cursor_pos.cur_char_in_line = _
    rw [hcp3, recordLine_cur_char, emits_cursor]
  · rw [emits_cursor]
    show s3.cursor_pos.lines.length = _
    rw [hcp3, recordLine_lines_length, emits_cursor, emits_track]

lemma displayLinesGo_ok (off : Nat) (ls : List (List Text)) :
    ∀ (n : Nat) (s : Tui), s.failAt = none →
    ∃ s', TypeingTui.displayLinesGo off ls n s = some (.ok (), s') ∧ s'.failAt = none ∧
      s'.track_lines = s.track_lines ∧ s'.bottom_lines_len = s.bottom_lines_len ∧
      s'.termW = s.termW ∧ s'.termH = s.termH ∧
      s'.cursor_pos.cur_line = s.cursor_pos.cur_line ∧
      s'.cursor_pos.cur_char_in_line = s.cursor_pos.cur_char_in_line ∧
      s'.cursor_pos.lines.length
        = s.cursor_pos.lines.length + (if s.track_lines then ls.length else 0) := by
  induction ls with
  | nil =>
    intro n s h
    refine ⟨s, rfl, h, rfl, rfl, rfl, rfl, rfl, rfl, ?_⟩
    split
    · rfl
    · rfl
  | cons l rest ih =>
    intro n s h
    have hw1 := wr_ok [.goto (s.termW / 2) (s.termH / 2 + n - off)] s h
    obtain ⟨s2, hrun2, hfa2, htr2, hbl2, hW2, hH2, hcl2, hcc2, hll2⟩ :=
      display_a_line_raw_ok l
        (Tui.emits { s with writesDone := s.writesDone + 1 }
          [.goto (s.termW / 2) (s.termH / 2 + n - off)])
        (by rw [emits_failAt]; exact h)
    obtain ⟨s3, hrun3, hfa3, htr3, hbl3, hW3, hH3, hcl3, hcc3, hll3⟩ := ih (n + 1) s2 hfa2
    refine ⟨s3, ?_, hfa3, by rw [htr3, htr2, emits_track],
      by rw [hbl3, hbl2, emits_bottom], by rw [hW3, hW2, emits_termW],
      by rw [hH3, hH2, emits_termH], by rw [hcl3, hcl2, emits_cursor],
      by rw [hcc3, hcc2, emits_cursor], ?_⟩
    · show andThen (wr [.goto (s.termW / 2) (s.termH / 2 + n - off)] s) _ = _
      rw [hw1]
      show andThen (TypeingTui.display_a_line_raw l _) _ = _
      rw [hrun2]
      exact hrun3
    · rw [hll3, hll2]
      simp only [emits_cursor, emits_track, htr2]
      by_cases htr : s.track_lines
      · simp only [htr, if_pos]
        show _ + 1 + rest.length = _ + (rest.length + 1)
        omega
      · simp only [htr]
        show _ + 0 + 0 = _ + (if false = true then (rest.length + 1 : Nat) else 0)
        simp

lemma display_lines_ok (lines : List (List Text)) (s : Tui) (h : s.failAt = none) :
    ∃ s', TypeingTui.display_lines lines s = some (.ok (), s') ∧ s'.failAt = none ∧
      s'.track_lines = s.track_lines ∧ s'.bottom_lines_len = s.bottom_lines_len ∧
      s'.termW = s.termW ∧ s'.termH = s.termH ∧
      s'.cursor_pos.cur_line = s.cursor_pos.cur_line ∧
      s'.cursor_pos.cur_char_in_line = s.cursor_pos.cur_char_in_line ∧
      s'.cursor_pos.lines.length
        = s.cursor_pos.lines.length + (if s.track_lines then lines.length else 0) := by
  obtain ⟨s2, hrun2, hfa2, htr2, hbl2, hW2, hH2, hcl2, hcc2, hll2⟩ :=
    displayLinesGo_ok (lines.length / 2) lines 0 s h
  refine ⟨{ s2 with writesDone := s2.writesDone + 1 }, ?_, hfa2, htr2, hbl2, hW2, hH2,
    hcl2, hcc2, hll2⟩
  unfold TypeingTui.display_lines
  rw [hrun2]
  show flushM s2 = _
  rw [flushM_ok s2 hfa2]

lemma wrIgnore_failAt (op : TOp) (s : Tui) : (wrIgnore op s).failAt = s.failAt := by
  unfold wrIgnore
  split
  · rfl
  · rw [emits_failAt]

lemma displayWordsLines_ne_nil (ws : List String) (mw : Nat) :
    displayWordsLines ws mw ≠ [] := by
  unfold displayWordsLines
  simp

/-! ### Claim C3: geometry validation of `display_words` -/

/-- C3: `display_words` fails before emitting anything, with the
height error naming the exact required row count, exactly when the
computed line count plus the reserved bottom rows plus 2 exceeds the
terminal height; otherwise with the width error naming the exact
required column count exactly when `max(longest word + 2, 50)` exceeds
the terminal width; otherwise it succeeds and returns the rendered
lines (on a healthy device). -/
theorem C3_display_words_validation (words : List String) (s : Tui)
    (hne : words ≠ []) (hok : s.failAt = none) :
    ((displayWordsLines words (s.termW * 2 / 5)).length + s.bottom_lines_len + 2 > s.termH →
      TypeingTui.display_words words s
        = some (.error (heightMsg
            ((displayWordsLines words (s.termW * 2 / 5)).length + s.bottom_lines_len + 2)
            s.termH), TypeingTui.reset s)) ∧
    ((displayWordsLines words (s.termW * 2 / 5)).length + s.bottom_lines_len + 2 ≤ s.termH →
      max (longestWordLen words + 2) MIN_LINE_WIDTH > s.termW →
      TypeingTui.display_words words s
        = some (.error (widthMsg (max (longestWordLen words + 2) MIN_LINE_WIDTH) s.termW),
            TypeingTui.reset s)) ∧
    ((displayWordsLines words (s.termW * 2 / 5)).length + s.bottom_lines_len + 2 ≤ s.termH →
      max (longestWordLen words + 2) MIN_LINE_WIDTH ≤ s.termW →
      ∃ s', TypeingTui.display_words words s
        = some (.ok (displayWordsLines words (s.termW * 2 / 5)), s')) := by
  have hmwl : max ((wrapWords words (s.termW * 2 / 5)).max_word_len + 1) MIN_LINE_WIDTH
      = max (longestWordLen words + 2) MIN_LINE_WIDTH := by
    rw [wrapWords_mwl words (s.termW * 2 / 5) hne]
  refine ⟨?_, ?_, ?_⟩
  · intro hgt
    simp only [TypeingTui.display_words, TypeingTui.reset]
    rw [if_pos hgt]
  · intro hle hwt
    simp only [TypeingTui.display_words, TypeingTui.reset]
    rw [if_neg (by omega), if_pos (by rw [hmwl]; exact hwt), hmwl]
  · intro hle hwle
    simp only [TypeingTui.display_words, TypeingTui.reset]
    rw [if_neg (by omega), if_neg (by rw [hmwl]; omega)]
    obtain ⟨s1, hrun1, hfa1, htr1, hbl1, hW1, hH1, hcl1, hcc1, hll1⟩ :=
      display_lines_ok ((displayWordsLines words (s.termW * 2 / 5)).map fun l => [l])
        { TypeingTui.reset s with track_lines := true } hok
    simp only [TypeingTui.reset] at hrun1
    simp [TypeingTui.reset, CursorPos.new] at hcl1 hll1
    have hlen1 : 0 < s1.cursor_pos.lines.length := by
      rw [hll1]
      exact List.length_pos.mpr (displayWordsLines_ne_nil words (s.termW * 2 / 5))
    have hcl0 : s1.cursor_pos.cur_line = 0 := hcl1
    obtain ⟨line, hline⟩ : ∃ line, s1.cursor_pos.lines[s1.cursor_pos.cur_line]? = some line := by
      rw [hcl0]
      exact ⟨_, List.getElem?_eq_getElem hlen1⟩
    have hcp : ({ s1 with track_lines := false } : Tui).cursor_pos.cur_posc
        = some (line.x + s1.cursor_pos.cur_char_in_line, line.y) := by
      show s1.cursor_pos.cur_posc = _
      unfold CursorPos.cur_posc
      rw [hline]
    refine ⟨{ wrIgnore (.goto (line.x + s1.cursor_pos.cur_char_in_line) line.y) { s1 with track_lines := false } with writesDone := (wrIgnore (.goto (line.x + s1.cursor_pos.cur_char_in_line) line.y) { s1 with track_lines := false }).writesDone + 1 }, ?_⟩
    rw [hrun1]
    show andThen (TypeingTui.move_to_cur_pos { s1 with track_lines := false }) _ = _
    unfold TypeingTui.move_to_cur_pos
    rw [hcp]
    show andThen (flushM (wrIgnore _ { s1 with track_lines := false })) _ = _
    rw [flushM_ok _ (by rw [wrIgnore_failAt]; exact hfa1)]
    exact rfl

/-- A concrete healthy 80×24 terminal in its initial state, used by the
concrete witnesses and counterexamples below. -/
def tui0 : Tui :=
  { out := [], hwx := 1, hwy := 1, writesDone := 0, failAt := none,
    cursor_pos := CursorPos.new, track_lines := false, bottom_lines_len := 0,
    termW := 80, termH := 24 }

/-- A 30-character word, wider than 40% of an 80-column terminal. -/
def w30 : String := "aaaaaaaaaaaaaaaaaaaaaaaaaaaaaa"

/-- Witness for C3 on the spec's end-to-end scenario: an 80×3 terminal
with a word list that wraps to 4 lines fails with the height error
naming 6 required rows against 3 available. -/
theorem C3_display_words_validation_witness :
    ([w30, w30, w30, w30] ≠ ([] : List String) ∧ ({ tui0 with termH := 3 } : Tui).failAt = none ∧
      (displayWordsLines [w30, w30, w30, w30] (({ tui0 with termH := 3 } : Tui).termW * 2 / 5)).length
        + ({ tui0 with termH := 3 } : Tui).bottom_lines_len + 2 > ({ tui0 with termH := 3 } : Tui).termH) ∧
    TypeingTui.display_words [w30, w30, w30, w30] { tui0 with termH := 3 }
      = some (.error (heightMsg 6 3), TypeingTui.reset { tui0 with termH := 3 }) :=
  ⟨⟨by decide, rfl, by decide⟩,
    (C3_display_words_validation [w30, w30, w30, w30] { tui0 with termH := 3 }
      (by decide) rfl).1 (by decide)⟩

/-! ### Claim C1: the row renderer measures the row by element count -/

/-- C1 (code-bug exhibit): on the two-element row
`[Text::new("ab"), Text::new("cd")]` (visual width 4) with recording
enabled, `display_a_line_raw` moves the cursor left by 1 (half the
element count 2, not half the visual width 4), records a `LinePos` of
length 2 (the element count, not the visual width 4), and moves left
by 2 afterwards — the `[T]: HasLength` visual width of the row is 4,
so the source's `text.as_ref().len()` is not the quantity the spec
(and the trait bound) call for. -/
theorem C1_display_a_line_raw_uses_element_count :
    (TypeingTui.display_a_line_raw [Text.new "ab", Text.new "cd"]
        { tui0 with track_lines := true, hwx := 10, hwy := 5 }).map
      (fun r => (r.2.out, r.2.cursor_pos.lines))
      = some ([.left 1, .text (Text.new "ab"), .text (Text.new "cd"), .left 2],
          [{ y := 5, x := 9, length := 2 }]) ∧
    textsLength [Text.new "ab", Text.new "cd"] = 4 ∧
    (2 : Nat) ≠ textsLength [Text.new "ab", Text.new "cd"] ∧
    (1 : Nat) ≠ textsLength [Text.new "ab", Text.new "cd"] / 2 := by
  decide

lemma wrIgnore_cursor (op : TOp) (s : Tui) : (wrIgnore op s).cursor_pos = s.cursor_pos := by
  unfold wrIgnore
  split
  · rfl
  · rw [emits_cursor]

lemma wrIgnore_track (op : TOp) (s : Tui) : (wrIgnore op s).track_lines = s.track_lines := by
  unfold wrIgnore
  split
  · rfl
  · rw [emits_track]

lemma wrIgnore_bottom (op : TOp) (s : Tui) :
    (wrIgnore op s).bottom_lines_len = s.bottom_lines_len := by
  unfold wrIgnore
  split
  · rfl
  · rw [emits_bottom]

lemma wrIgnore_termW (op : TOp) (s : Tui) : (wrIgnore op s).termW = s.termW := by
  unfold wrIgnore
  split
  · rfl
  · rw [emits_termW]

lemma wrIgnore_termH (op : TOp) (s : Tui) : (wrIgnore op s).termH = s.termH := by
  unfold wrIgnore
  split
  · rfl
  · rw [emits_termH]

/-! ### Claim C5: `replace_text` and the logical position -/

/-- C5 (counterexample): in the well-formed state with one tracked line
(y 5, x 10, length 3) and logical position (0, 2), `replace_text` does
not leave the cursor model unchanged: afterwards the model is at
(0, 1) and the hardware cursor at (11, 5), whereas the original logical
position (0, 2) has coordinates (12, 5). -/
theorem C5_counterexample :
    (TypeingTui.replace_text (Text.new "a")
        { tui0 with cursor_pos := ⟨[⟨5, 10, 3⟩], 0, 2⟩ }).map
      (fun r => (r.2.cursor_pos, r.2.hwx, r.2.hwy))
      = some (⟨[⟨5, 10, 3⟩], 0, 1⟩, 11, 5) ∧
    CursorPos.cur_posc ⟨[⟨5, 10, 3⟩], 0, 2⟩ = some (12, 5) ∧
    ¬((⟨[⟨5, 10, 3⟩], 0, 1⟩ : CursorPos) = ⟨[⟨5, 10, 3⟩], 0, 2⟩ ∧
        ((11, 5) : Nat × Nat) = (12, 5)) := by
  decide

/-- C5 (amended): on a healthy device and a well-formed cursor model,
`replace_text` retreats the cursor model to the previous logical
position, writes the text there, and leaves both the model and the
hardware cursor at that previous position (so the pre-call position is
restored only when the model was already at the first position). -/
theorem C5_replace_text_moves_to_previous (t : Text) (s : Tui)
    (hok : s.failAt = none) (hwf : s.cursor_pos.WF) :
    ∃ s', TypeingTui.replace_text t s = some (.ok (), s') ∧
      s'.cursor_pos = cursorPrevPure s.cursor_pos ∧
      (s'.hwx, s'.hwy) = cursorCoords (cursorPrevPure s.cursor_pos) ∧
      s'.track_lines = s.track_lines ∧ s'.bottom_lines_len = s.bottom_lines_len ∧
      s'.termW = s.termW ∧ s'.termH = s.termH := by
  have hwf' := (CursorPos.prevPure_wf s.cursor_pos hwf).1
  have hprev := CursorPos.prevc_wf s.cursor_pos hwf
  have hcpw := CursorPos.cur_posc_wf (cursorPrevPure s.cursor_pos) hwf'
  set P := cursorCoords (cursorPrevPure s.cursor_pos) with hP
  set s1 := wrIgnore (.goto P.1 P.2)
    { s with cursor_pos := cursorPrevPure s.cursor_pos } with hs1
  have hfa1 : s1.failAt = none := by
    rw [hs1, wrIgnore_failAt]
    exact hok
  have hw2 := wr_ok [.text t] s1 hfa1
  set s2 := Tui.emits { s1 with writesDone := s1.writesDone + 1 } [.text t] with hs2
  have hcp2 : s2.cursor_pos = cursorPrevPure s.cursor_pos := by
    rw [hs2, emits_cursor]
    show s1.cursor_pos = _
    rw [hs1, wrIgnore_cursor]
  have hfa2 : s2.failAt = none := by
    rw [hs2, emits_failAt]
    exact hfa1
  refine ⟨wrIgnore (.goto P.1 P.2) s2, ?_, ?_, ?_, ?_, ?_, ?_, ?_⟩
  · unfold TypeingTui.replace_text TypeingTui.move_to_prev_char
    rw [hprev]
    show andThen (TypeingTui.display_raw_text t s1) _ = _
    unfold TypeingTui.display_raw_text
    rw [hw2]
    show TypeingTui.move_to_cur_pos s2 = _
    unfold TypeingTui.move_to_cur_pos
    rw [show s2.cursor_pos.cur_posc = some P from by rw [hcp2]; exact hcpw]
  · rw [wrIgnore_cursor]
    exact hcp2
  · rw [wrIgnore_ok _ _ hfa2]
    exact rfl
  · rw [wrIgnore_track, hs2, emits_track]
    show s1.track_lines = _
    rw [hs1, wrIgnore_track]
  · rw [wrIgnore_bottom, hs2, emits_bottom]
    show s1.bottom_lines_len = _
    rw [hs1, wrIgnore_bottom]
  · rw [wrIgnore_termW, hs2, emits_termW]
    show s1.termW = _
    rw [hs1, wrIgnore_termW]
  · rw [wrIgnore_termH, hs2, emits_termH]
    show s1.termH = _
    rw [hs1, wrIgnore_termH]

/-- Witness for C5 at the counterexample's state: the cursor model ends
one position back, at (0, 1), with the hardware cursor at (11, 5). -/
theorem C5_replace_text_moves_to_previous_witness :
    ({ tui0 with cursor_pos := ⟨[⟨5, 10, 3⟩], 0, 2⟩ } : Tui).failAt = none ∧
    CursorPos.WF ⟨[⟨5, 10, 3⟩], 0, 2⟩ ∧
    (∃ s', TypeingTui.replace_text (Text.new "b")
        { tui0 with cursor_pos := ⟨[⟨5, 10, 3⟩], 0, 2⟩ } = some (.ok (), s') ∧
      s'.cursor_pos = cursorPrevPure ⟨[⟨5, 10, 3⟩], 0, 2⟩ ∧
      (s'.hwx, s'.hwy) = cursorCoords (cursorPrevPure ⟨[⟨5, 10, 3⟩], 0, 2⟩) ∧
      s'.track_lines = false ∧ s'.bottom_lines_len = 0 ∧
      s'.termW = 80 ∧ s'.termH = 24) :=
  ⟨rfl, by decide,
    C5_replace_text_moves_to_previous (Text.new "b")
      { tui0 with cursor_pos := ⟨[⟨5, 10, 3⟩], 0, 2⟩ } rfl (by decide)⟩

lemma displayLinesBottomGo_ok (off : Nat) (ls : List (List Text)) :
    ∀ (n : Nat) (s : Tui), s.failAt = none →
    ∃ s', TypeingTui.displayLinesBottomGo off ls n s = some (.ok (), s') ∧
      s'.failAt = none ∧ s'.track_lines = s.track_lines := by
  induction ls with
  | nil =>
    intro n s h
    exact ⟨s, rfl, h, rfl⟩
  | cons l rest ih =>
    intro n s h
    have hw1 := wr_ok [.goto (s.termW / 2) (s.termH - 1 + n - off)] s h
    obtain ⟨s2, hrun2, hfa2, htr2, hbl2, hW2, hH2, hcl2, hcc2, hll2⟩ :=
      display_a_line_raw_ok l
        (Tui.emits { s with writesDone := s.writesDone + 1 }
          [.goto (s.termW / 2) (s.termH - 1 + n - off)])
        (by rw [emits_failAt]; exact h)
    obtain ⟨s3, hrun3, hfa3, htr3⟩ := ih (n + 1) s2 hfa2
    refine ⟨s3, ?_, hfa3, by rw [htr3, htr2, emits_track]⟩
    show andThen (wr [.goto (s.termW / 2) (s.termH - 1 + n - off)] s) _ = _
    rw [hw1]
    show andThen (TypeingTui.display_a_line_raw l _) _ = _
    rw [hrun2]
    exact hrun3

/-- Reduction of `andThen` over an already-successful first step. -/
lemma andThen_ok_bind {α β : Type} {a : α} {t : Tui}
    {f : α → Tui → Option (Except String β × Tui)} :
    andThen (some (.ok a, t)) f = f a t := rfl

/-- Reduction of `andThen` over an already-failed first step. -/
lemma andThen_error_bind {α β : Type} {e : String} {t : Tui}
    {f : α → Tui → Option (Except String β × Tui)} :
    andThen (some (.error e, t)) f = some (.error e, t) := rfl

/-! ### Claim C6: the recording flag -/

/-- C6 (counterexample): on a device whose very first write fails while
`display_words` is rendering its lines, `display_words` returns an
error with `track_lines` still true, although it was false on entry. -/
theorem C6_counterexample :
    (TypeingTui.display_words ["aa"]
        { tui0 with termW := 50, termH := 10, failAt := some 0 }).map
      (fun r => (r.1.isOk, r.2.track_lines)) = some (false, true) ∧
    ({ tui0 with termW := 50, termH := 10, failAt := some 0 } : Tui).track_lines = false := by
  decide

/-- C6 (amended): provided the device does not fail and the flag is
false on entry, `display_words` returns with the flag false again (the
success path clears it, the geometry-validation path never set it),
and every other public rendering operation returns with the flag still
false; only an I/O failure during the line-rendering phase of
`display_words` can leak the flag set (see the counterexample). -/
theorem C6_track_lines_flag (words : List String) (s : Tui)
    (hflag : s.track_lines = false) (hok : s.failAt = none) :
    (∀ r s', TypeingTui.display_words words s = some (r, s') → s'.track_lines = false) ∧
    (∀ text r s', TypeingTui.display_a_line text s = some (r, s') → s'.track_lines = false) ∧
    (∀ ls r s', TypeingTui.display_lines ls s = some (r, s') → s'.track_lines = false) ∧
    (∀ ls r s', TypeingTui.display_lines_bottom ls s = some (r, s') → s'.track_lines = false) ∧
    (∀ r s', TypeingTui.reset_screen s = some (r, s') → s'.track_lines = false) ∧
    (∀ t r s', TypeingTui.replace_text t s = some (r, s') → s'.track_lines = false) := by
  refine ⟨?_, ?_, ?_, ?_, ?_, ?_⟩
  · intro r s' h
    simp only [TypeingTui.display_words, TypeingTui.reset] at h
    by_cases h1 : (displayWordsLines words (s.termW * 2 / 5)).length + s.bottom_lines_len + 2
        > s.termH
    · rw [if_pos h1] at h
      injection h with h
      injection h with hr hs
      rw [← hs]
      exact hflag
    · rw [if_neg h1] at h
      by_cases h2 : max ((wrapWords words (s.termW * 2 / 5)).max_word_len + 1) MIN_LINE_WIDTH
          > s.termW
      · rw [if_pos h2] at h
        injection h with h
        injection h with hr hs
        rw [← hs]
        exact hflag
      · rw [if_neg h2] at h
        obtain ⟨s1, hrun1, hfa1, htr1, hbl1, hW1, hH1, hcl1, hcc1, hll1⟩ :=
          display_lines_ok ((displayWordsLines words (s.termW * 2 / 5)).map fun l => [l])
            { s with cursor_pos := CursorPos.new, track_lines := true } hok
        rw [hrun1, andThen_ok_bind] at h
        unfold TypeingTui.move_to_cur_pos at h
        cases hc : ({ s1 with track_lines := false } : Tui).cursor_pos.cur_posc with
        | none =>
          rw [hc] at h
          exact absurd h (by simp [andThen])
        | some p =>
          rw [hc] at h
          obtain ⟨x, y⟩ := p
          simp only [andThen_ok_bind] at h
          rw [flushM_ok _ (by rw [wrIgnore_failAt]; exact hfa1), andThen_ok_bind] at h
          injection h with h
          injection h with hr hs
          rw [← hs]
          show (wrIgnore (.goto x y) { s1 with track_lines := false }).track_lines = false
          rw [wrIgnore_track]
  · intro text r s' h
    obtain ⟨s1, hrun1, hfa1, htr1, hbl1, hW1, hH1, hcl1, hcc1, hll1⟩ :=
      display_a_line_raw_ok text s hok
    unfold TypeingTui.display_a_line at h
    rw [hrun1, andThen_ok_bind, flushM_ok s1 hfa1] at h
    injection h with h
    injection h with hr hs
    rw [← hs]
    show s1.track_lines = false
    rw [htr1]
    exact hflag
  · intro ls r s' h
    obtain ⟨s1, hrun1, hfa1, htr1, hbl1, hW1, hH1, hcl1, hcc1, hll1⟩ :=
      display_lines_ok ls s hok
    rw [hrun1] at h
    injection h with h
    injection h with hr hs
    rw [← hs]
    rw [htr1]
    exact hflag
  · intro ls r s' h
    simp only [TypeingTui.display_lines_bottom] at h
    obtain ⟨s1, hrun1, hfa1, htr1⟩ :=
      displayLinesBottomGo_ok ls.length ls 0 { s with bottom_lines_len := ls.length } hok
    rw [hrun1, andThen_ok_bind, flushM_ok s1 hfa1] at h
    injection h with h
    injection h with hr hs
    rw [← hs]
    show s1.track_lines = false
    rw [htr1]
    exact hflag
  · intro r s' h
    unfold TypeingTui.reset_screen at h
    rw [wr_ok _ _ hok, andThen_ok_bind,
      flushM_ok _ (by rw [emits_failAt]; exact hok)] at h
    injection h with h
    injection h with hr hs
    rw [← hs]
    show (Tui.emits { s with writesDone := s.writesDone + 1 }
      [.clearAll, .goto (s.termW / 2) (s.termH / 2), .blinkingBar]).track_lines = false
    rw [emits_track]
    exact hflag
  · intro t r s' h
    cases hp : s.cursor_pos.prevc with
    | none =>
      have hnone : TypeingTui.replace_text t s = none := by
        unfold TypeingTui.replace_text TypeingTui.move_to_prev_char
        rw [hp]
        exact rfl
      rw [hnone] at h
      exact Option.noConfusion h
    | some q =>
      obtain ⟨⟨x, y⟩, cp⟩ := q
      have heq : TypeingTui.replace_text t s
          = andThen (TypeingTui.display_raw_text t
              (wrIgnore (.goto x y) { s with cursor_pos := cp }))
            (fun _ s => TypeingTui.move_to_cur_pos s) := by
        unfold TypeingTui.replace_text TypeingTui.move_to_prev_char
        rw [hp]
        exact rfl
      rw [heq] at h
      unfold TypeingTui.display_raw_text at h
      rw [wr_ok _ _ (by rw [wrIgnore_failAt]; exact hok), andThen_ok_bind] at h
      unfold TypeingTui.move_to_cur_pos at h
      cases hc : (Tui.emits { wrIgnore (.goto x y) { s with cursor_pos := cp } with
          writesDone := (wrIgnore (.goto x y)
            { s with cursor_pos := cp }).writesDone + 1 } [.text t]).cursor_pos.cur_posc with
      | none =>
        rw [hc] at h
        exact Option.noConfusion h
      | some p =>
        rw [hc] at h
        obtain ⟨x2, y2⟩ := p
        injection h with h
        injection h with hr hs
        rw [← hs, wrIgnore_track, emits_track]
        show (wrIgnore (.goto x y) { s with cursor_pos := cp }).track_lines = false
        rw [wrIgnore_track]
        exact hflag

/-- Witness for C6: on the healthy initial 80×24 terminal, any return
of `display_words` leaves the flag false. -/
theorem C6_track_lines_flag_witness :
    (tui0.track_lines = false ∧ tui0.failAt = none) ∧
    (∀ r s', TypeingTui.display_words ["the", "quick", "brown", "fox"] tui0 = some (r, s') →
      s'.track_lines = false) :=
  ⟨⟨rfl, rfl⟩, (C6_track_lines_flag ["the", "quick", "brown", "fox"] tui0 rfl rfl).1⟩

/-! ### Claim C8: the restore sequence on destruction -/

/-- C8 (counterexample): hiding the cursor and then dropping the
surface leaves the cursor hidden — the restore sequence clears the
screen, sets a steady block shape and homes to (1, 1) but emits no
visibility change, so the claimed "visible" cursor is false for a
surface whose cursor was hidden. -/
theorem C8_counterexample :
    (TypeingTui.hide_cursor tui0).map (fun r => (r.1.isOk, r.2.out)) = some (true, [.curHide]) ∧
    (TypeingTui.dropRun { tui0 with out := [.curHide], writesDone := 2 }).map
      (fun s => ((viewOut true s.out).visible, (viewOut true s.out).screen,
        (viewOut true s.out).shape, s.hwx, s.hwy))
      = some (false, [], CursorShape.steadyBlock, 1, 1) := by
  decide

/-- C8 (amended): on destruction (and a device that accepts the final
write and flush), the emitted restore sequence appends exactly
clear-all, steady-block and go-to-(1, 1): afterwards the screen is
cleared, the cursor shape is a steady block and the hardware cursor is
at the top-left corner — but cursor visibility is unchanged, so a
cursor hidden via `hide_cursor` stays hidden. -/
theorem C8_drop_restores_screen (s : Tui) (hok : s.failAt = none) :
    ∃ s', TypeingTui.dropRun s = some s' ∧
      s'.out = s.out ++ [.clearAll, .steadyBlock, .goto 1 1] ∧
      (∀ b, (viewOut b s'.out).screen = [] ∧
        (viewOut b s'.out).shape = CursorShape.steadyBlock ∧
        (viewOut b s'.out).visible = (viewOut b s.out).visible) ∧
      (s'.hwx, s'.hwy) = (1, 1) := by
  have hw := wr_ok [.clearAll, .steadyBlock, .goto 1 1] s hok
  set s1 := Tui.emits { s with writesDone := s.writesDone + 1 }
    [.clearAll, .steadyBlock, .goto 1 1] with hs1
  have hout : s1.out = s.out ++ [.clearAll, .steadyBlock, .goto 1 1] := by
    rw [hs1, emits_out]
  refine ⟨{ s1 with writesDone := s1.writesDone + 1 }, ?_, hout, ?_, ?_⟩
  · unfold TypeingTui.dropRun
    rw [hw]
    show (match flushM s1 with
      | some (.ok _, s) => some s
      | _ => none) = _
    rw [flushM_ok s1 (by rw [hs1, emits_failAt]; exact hok)]
  · intro b
    rw [hout]
    unfold viewOut
    rw [List.foldl_append]
    refine ⟨rfl, rfl, ?_⟩
    show (viewStep (viewStep (viewStep (viewOut b s.out) .clearAll) .steadyBlock)
      (.goto 1 1)).visible = (viewOut b s.out).visible
    rfl
  · show (s1.hwx, s1.hwy) = (1, 1)
    rw [hs1]
    rfl

/-- Witness for C8 at the initial terminal state. -/
theorem C8_drop_restores_screen_witness :
    tui0.failAt = none ∧
    (∃ s', TypeingTui.dropRun tui0 = some s' ∧
      s'.out = tui0.out ++ [.clearAll, .steadyBlock, .goto 1 1] ∧
      (∀ b, (viewOut b s'.out).screen = [] ∧
        (viewOut b s'.out).shape = CursorShape.steadyBlock ∧
        (viewOut b s'.out).visible = (viewOut b tui0.out).visible) ∧
      (s'.hwx, s'.hwy) = (1, 1)) :=
  ⟨rfl, C8_drop_restores_screen tui0 rfl⟩
